import Mathlib

/-!
Verification of the AIvidence fact-checking pipeline.

This file gives a shallow embedding, in Lean 4, of the control and
algorithmic logic of the AIvidence repository and settles the specified
properties against it.  The embedded components are:

* the importance-weighted score aggregation of
  `aividence/core/fact_check_engine.py` (`_generate_overall_analysis`);
* the retry/timeout loop of `aividence/clients/web_search_client.py`
  (`WebSearchClient.search`);
* the oracle-reply analysis of `aividence/agents/claim_verifier.py`
  (`_analyze_search_results`), including source deduplication, the
  recency confidence cap, and the failure defaults;
* the claim accumulation, deduplication and selection of
  `aividence/agents/claim_extractor.py` (`extract_claims`) combined with
  the sort-and-truncate step of `FactCheckEngine.analyze_content`;
* the per-chunk claim construction of `_extract_claims_from_chunk`;
* the two-strategy URL loading with bot-block detection of
  `aividence/clients/content_scraper.py` (`load_content` and
  `_check_for_access_denial`).

Machine reals (Python floats) are modelled as rationals; Python `round(x, 1)`
is modelled as round-half-to-even at one decimal.  External library calls
(HTTP transport, BeautifulSoup extraction, regular-expression JSON location,
`json.loads`) are modelled by their outcomes, which enter the embedded
functions as explicit parameters.
-/

/-! ## Data model (aividence/models) -/

/-- Embeds `FactClaim` (`aividence/models/fact_claim.py`).  `importance`
is an `Int`: pydantic coerces the oracle-supplied value to an integer but
does not enforce the documented 1-10 range. -/
structure FactClaim where
  id : String
  claim : String
  topic : String
  keywords : List String
  importance : Int
deriving DecidableEq, Repr

/-- A source entry kept in a `FactCheckResult`: the dict
`\x7b"title": ..., "url": ...\x7d` built in `_analyze_search_results`. -/
structure SourceEntry where
  title : String
  url : String
deriving DecidableEq, Repr

/-- Embeds `FactCheckResult` (`aividence/models/fact_check_result.py`).
Scores and confidences are rationals standing for Python floats. -/
structure FactCheckResult where
  claim_id : String
  claim : String
  score : ℚ
  confidence : ℚ
  evidence : List String
  contradictions : List String
  sources : List SourceEntry
  search_queries : List String
  explanation : String
  is_recent_news : Bool := false
deriving DecidableEq, Repr

/-- Embeds `SearchResult` (`aividence/models/search_result.py`). -/
structure SearchResult where
  title : String
  body : String
  url : String
  source : String
deriving DecidableEq, Repr

/-! ## Python rounding

`round(x, 1)` in Python rounds half to even.  `roundHalfEven` is the
integer rounding; `pyRound1` scales by ten. -/

/-- Round a rational to the nearest integer, ties to even. -/
def roundHalfEven (q : ℚ) : ℤ :=
  if q - (⌊q⌋ : ℚ) < 1/2 then ⌊q⌋
  else if (1 : ℚ)/2 < q - (⌊q⌋ : ℚ) then ⌊q⌋ + 1
  else if ⌊q⌋ % 2 = 0 then ⌊q⌋ else ⌊q⌋ + 1

/-- Python `round(q, 1)`: round half to even at one decimal. -/
def pyRound1 (q : ℚ) : ℚ := (roundHalfEven (10 * q) : ℚ) / 10

theorem roundHalfEven_intCast (n : ℤ) : roundHalfEven (n : ℚ) = n := by
  unfold roundHalfEven
  rw [Int.floor_intCast]
  norm_num

theorem roundHalfEven_le (q : ℚ) : (roundHalfEven q : ℚ) ≤ q + 1/2 := by
  unfold roundHalfEven
  have hfl : (⌊q⌋ : ℚ) ≤ q := Int.floor_le q
  split
  · linarith
  · next h =>
    split
    · next h2 => push_cast; linarith
    · split <;> push_cast <;> linarith [not_lt.mp h]

theorem le_roundHalfEven (q : ℚ) : q - 1/2 ≤ (roundHalfEven q : ℚ) := by
  unfold roundHalfEven
  have hfl : q < (⌊q⌋ : ℚ) + 1 := Int.lt_floor_add_one q
  split
  · next h => linarith
  · next h =>
    split
    · push_cast; linarith
    · split <;> push_cast <;> linarith

theorem pyRound1_intCast (n : ℤ) : pyRound1 (n : ℚ) = n := by
  unfold pyRound1
  have : (10 : ℚ) * (n : ℚ) = ((10 * n : ℤ) : ℚ) := by push_cast; ring
  rw [this, roundHalfEven_intCast]
  push_cast
  ring

theorem pyRound1_bounds {q : ℚ} (h0 : 0 ≤ q) (h5 : q ≤ 5) :
    0 ≤ pyRound1 q ∧ pyRound1 q ≤ 5 := by
  have hub : (roundHalfEven (10 * q) : ℚ) ≤ 10 * q + 1/2 := roundHalfEven_le _
  have hlb : 10 * q - 1/2 ≤ (roundHalfEven (10 * q) : ℚ) := le_roundHalfEven _
  have hzle : (0 : ℤ) ≤ roundHalfEven (10 * q) := by
    by_contra hc
    push_neg at hc
    have : (roundHalfEven (10 * q) : ℚ) ≤ ((-1 : ℤ) : ℚ) := by
      exact_mod_cast Int.le_sub_one_of_lt hc
    push_cast at this
    linarith
  have hle50 : roundHalfEven (10 * q) ≤ (50 : ℤ) := by
    by_contra hc
    push_neg at hc
    have : ((51 : ℤ) : ℚ) ≤ (roundHalfEven (10 * q) : ℚ) := by
      exact_mod_cast hc
    push_cast at this
    linarith
  constructor
  · unfold pyRound1
    have : (0 : ℚ) ≤ (roundHalfEven (10 * q) : ℚ) := by exact_mod_cast hzle
    positivity
  · unfold pyRound1
    have : (roundHalfEven (10 * q) : ℚ) ≤ 50 := by exact_mod_cast hle50
    linarith

/-! ## Score aggregation (`FactCheckEngine._generate_overall_analysis`)

The engine computes `total_weight = sum(claim.importance)`, then for each
claim adds `result.score * claim.importance` for the first verification
result whose `claim_id` equals the claim id (the inner loop breaks on the
first match; a claim with no matching result contributes nothing).  The
overall score is `round(total_score / total_weight, 1)` when
`total_weight > 0` and the neutral `2.5` otherwise. -/

/-- The first verification result whose `claim_id` equals `cid` (the inner
`for ... break` loop of `_generate_overall_analysis`). -/
def findResult (results : List FactCheckResult) (cid : String) : Option FactCheckResult :=
  results.find? (fun r => r.claim_id == cid)

/-- `total_weight` in `_generate_overall_analysis`. -/
def totalWeight (claims : List FactClaim) : ℤ :=
  (claims.map (fun c => c.importance)).sum

/-- One iteration of the outer loop of `_generate_overall_analysis`:
the contribution of a claim to `total_score`. -/
def claimContribution (results : List FactCheckResult) (c : FactClaim) : ℚ :=
  match findResult results c.id with
  | some r => r.score * (c.importance : ℚ)
  | none => 0

/-- `total_score` in `_generate_overall_analysis`. -/
def totalScore (claims : List FactClaim) (results : List FactCheckResult) : ℚ :=
  (claims.map (claimContribution results)).sum

/-- The overall score computed by `_generate_overall_analysis`. -/
def overallScore (claims : List FactClaim) (results : List FactCheckResult) : ℚ :=
  if 0 < totalWeight claims then
    pyRound1 (totalScore claims results / (totalWeight claims : ℚ))
  else 5/2

/-- Modelled from the spec wording of the aggregation contract: the
importance-weighted mean of (score, importance) pairs, rounded to one
decimal, defaulting to 2.5 when the total importance is zero.  Used as the
specification side of the refinement for claim C1. -/
def specWeightedMean (pairs : List (ℚ × ℤ)) : ℚ :=
  if (pairs.map (fun p => p.2)).sum = 0 then 5/2
  else pyRound1 ((pairs.map (fun p => p.1 * (p.2 : ℚ))).sum
                 / (((pairs.map (fun p => p.2)).sum : ℤ) : ℚ))

theorem claimContribution_cons_ne (r : FactCheckResult) (rs : List FactCheckResult)
    (c : FactClaim) (hne : r.claim_id ≠ c.id) :
    claimContribution (r :: rs) c = claimContribution rs c := by
  unfold claimContribution findResult
  rw [List.find?_cons_of_neg]
  simpa using hne

theorem claimContribution_cons_eq (r : FactCheckResult) (rs : List FactCheckResult)
    (c : FactClaim) (heq : r.claim_id = c.id) :
    claimContribution (r :: rs) c = r.score * (c.importance : ℚ) := by
  unfold claimContribution findResult
  rw [List.find?_cons_of_pos]
  simpa using heq

/-- With claims and results paired positionally by `claim_id` and claim ids
pairwise distinct, the lookup-based `total_score` is the sum of the paired
products. -/
theorem totalScore_of_pairing (claims : List FactClaim) (results : List FactCheckResult)
    (hpair : List.Forall₂ (fun c r => r.claim_id = c.id) claims results)
    (hnodup : (claims.map (fun c => c.id)).Nodup) :
    totalScore claims results
      = (List.zipWith (fun (c : FactClaim) (r : FactCheckResult)
          => r.score * (c.importance : ℚ)) claims results).sum := by
  induction hpair with
  | nil => simp [totalScore]
  | @cons c r cs rs hcr htail ih =>
    simp only [List.map_cons, List.nodup_cons] at hnodup
    obtain ⟨hnotmem, hnodup2⟩ := hnodup
    have hhead : claimContribution (r :: rs) c = r.score * (c.importance : ℚ) :=
      claimContribution_cons_eq r rs c hcr
    have htaileq : ∀ c2 ∈ cs, claimContribution (r :: rs) c2 = claimContribution rs c2 := by
      intro c2 hc2
      apply claimContribution_cons_ne
      rw [hcr]
      intro hids
      exact hnotmem (hids ▸ List.mem_map_of_mem (fun x => x.id) hc2)
    unfold totalScore
    simp only [List.map_cons, List.sum_cons, List.zipWith_cons_cons]
    rw [hhead, List.map_congr_left htaileq]
    have : (cs.map (claimContribution rs)).sum
        = (List.zipWith (fun (c : FactClaim) (r : FactCheckResult)
            => r.score * (c.importance : ℚ)) cs rs).sum := ih hnodup2
    rw [this]

theorem totalWeight_eq_pairs_sum (claims : List FactClaim) (results : List FactCheckResult)
    (hlen : claims.length = results.length) :
    totalWeight claims
      = ((List.zipWith (fun (c : FactClaim) (r : FactCheckResult)
          => (r.score, c.importance)) claims results).map (fun p => p.2)).sum := by
  unfold totalWeight
  induction claims generalizing results with
  | nil => simp
  | cons c cs ih =>
    cases results with
    | nil => simp at hlen
    | cons r rs =>
      simp only [List.length_cons, Nat.succ_inj] at hlen
      simp [ih rs hlen]

theorem pyRound1_five : pyRound1 5 = 5 := by
  have h := pyRound1_intCast 5
  norm_num at h
  exact h

theorem pyRound1_eight_fifths : pyRound1 (8/5) = 8/5 := by
  unfold pyRound1
  have h10 : (10 : ℚ) * (8/5) = ((16 : ℤ) : ℚ) := by norm_num
  rw [h10, roundHalfEven_intCast]
  norm_num

theorem pyRound1_ten : pyRound1 10 = 10 := by
  have h := pyRound1_intCast 10
  norm_num at h
  exact h

/-- First example of the aggregation spec: scores and importances
(5, 10) and (0, 0). -/
def exClaimsA : List FactClaim :=
  [⟨"claim_0_1", "sA", "t", [], 10⟩, ⟨"claim_0_2", "sB", "t", [], 0⟩]

def exResultsA : List FactCheckResult :=
  [⟨"claim_0_1", "sA", 5, 1/2, [], [], [], [], "e", false⟩,
   ⟨"claim_0_2", "sB", 0, 1/2, [], [], [], [], "e", false⟩]

/-- Second example of the aggregation spec: scores and importances
(4, 2) and (1, 8). -/
def exClaimsB : List FactClaim :=
  [⟨"claim_0_1", "sA", "t", [], 2⟩, ⟨"claim_0_2", "sB", "t", [], 8⟩]

def exResultsB : List FactCheckResult :=
  [⟨"claim_0_1", "sA", 4, 1/2, [], [], [], [], "e", false⟩,
   ⟨"claim_0_2", "sB", 1, 1/2, [], [], [], [], "e", false⟩]

theorem overallScore_exA : overallScore exClaimsA exResultsA = 5 := by
  have h : totalScore exClaimsA exResultsA / ((totalWeight exClaimsA : ℤ) : ℚ) = 5 := by
    simp only [totalScore, totalWeight, claimContribution, findResult,
      exClaimsA, exResultsA, List.find?, List.map_cons, List.map_nil,
      String.reduceBEq]
    norm_num
  rw [overallScore]
  rw [if_pos (by norm_num [totalWeight, exClaimsA])]
  rw [h, pyRound1_five]

theorem overallScore_exB : overallScore exClaimsB exResultsB = 8/5 := by
  have h : totalScore exClaimsB exResultsB / ((totalWeight exClaimsB : ℤ) : ℚ) = 8/5 := by
    simp only [totalScore, totalWeight, claimContribution, findResult,
      exClaimsB, exResultsB, List.find?, List.map_cons, List.map_nil,
      String.reduceBEq]
    norm_num
  rw [overallScore]
  rw [if_pos (by norm_num [totalWeight, exClaimsB])]
  rw [h, pyRound1_eight_fifths]

/-- Claim C1: for every list of claims paired with verification results by
claim id (ids pairwise distinct, importances nonnegative as the data model
requires), the aggregated overall score is the importance-weighted mean
round(sum(score * importance) / sum(importance), 1), defaulting to 2.5 when
the total importance is zero; in particular the pairs (5, 10), (0, 0) give
5.0 and (4, 2), (1, 8) give 1.6. -/
theorem aggregate_is_weighted_mean :
    (∀ (claims : List FactClaim) (results : List FactCheckResult),
      List.Forall₂ (fun c r => r.claim_id = c.id) claims results →
      (claims.map (fun c => c.id)).Nodup →
      (∀ c ∈ claims, 0 ≤ c.importance) →
      overallScore claims results
        = specWeightedMean (List.zipWith (fun (c : FactClaim) (r : FactCheckResult)
            => (r.score, c.importance)) claims results)) ∧
    overallScore exClaimsA exResultsA = 5 ∧
    overallScore exClaimsB exResultsB = 8/5 := by
  refine ⟨?_, overallScore_exA, overallScore_exB⟩
  intro claims results hpair hnodup himp
  have hlen : claims.length = results.length := hpair.length_eq
  have hW : totalWeight claims
      = ((List.zipWith (fun (c : FactClaim) (r : FactCheckResult)
          => (r.score, c.importance)) claims results).map (fun p => p.2)).sum :=
    totalWeight_eq_pairs_sum claims results hlen
  have hWnonneg : 0 ≤ totalWeight claims := by
    apply List.sum_nonneg
    intro x hx
    obtain ⟨c, hc, rfl⟩ := List.mem_map.mp hx
    exact himp c hc
  have hTS : totalScore claims results
      = ((List.zipWith (fun (c : FactClaim) (r : FactCheckResult)
          => (r.score, c.importance)) claims results).map
            (fun p => p.1 * (p.2 : ℚ))).sum := by
    rw [totalScore_of_pairing claims results hpair hnodup]
    rw [List.map_zipWith]
  rw [overallScore, specWeightedMean, ← hW, ← hTS]
  by_cases hpos : 0 < totalWeight claims
  · rw [if_pos hpos, if_neg (by omega)]
  · have hz : totalWeight claims = 0 := le_antisymm (not_lt.mp hpos) hWnonneg
    rw [if_neg hpos, if_pos hz]

/-- Witness for `aggregate_is_weighted_mean`: the general conjunct applied
to the first concrete example. -/
theorem aggregate_is_weighted_mean_witness :
    overallScore exClaimsA exResultsA
      = specWeightedMean (List.zipWith (fun (c : FactClaim) (r : FactCheckResult)
          => (r.score, c.importance)) exClaimsA exResultsA) :=
  aggregate_is_weighted_mean.1 exClaimsA exResultsA
    (List.Forall₂.cons rfl (List.Forall₂.cons rfl List.Forall₂.nil))
    (by decide) (by decide)

/-! ## Claim C4: overall score bounds -/

/-- A single claim whose verification result carries an oracle-supplied
score of 10: the engine does not clamp scores. -/
def outOfRangeClaims : List FactClaim := [⟨"claim_0_1", "text", "t", [], 1⟩]

def outOfRangeResults : List FactCheckResult :=
  [⟨"claim_0_1", "text", 10, 1/2, [], [], [], [], "e", false⟩]

/-- Counterexample to claim C4 as stated: with a single claim of importance
1 whose result score is the out-of-range 10 (nothing in the code clamps the
oracle-reported score), the overall score is 10, outside [0, 5]. -/
theorem overall_score_escapes_range :
    overallScore outOfRangeClaims outOfRangeResults = 10 ∧
    ¬ (overallScore outOfRangeClaims outOfRangeResults ≤ 5) := by
  have h : overallScore outOfRangeClaims outOfRangeResults = 10 := by
    have hts : totalScore outOfRangeClaims outOfRangeResults
        / ((totalWeight outOfRangeClaims : ℤ) : ℚ) = 10 := by
      norm_num [totalScore, totalWeight, claimContribution, findResult,
        outOfRangeClaims, outOfRangeResults]
    rw [overallScore, if_pos (by norm_num [totalWeight, outOfRangeClaims]),
      hts, pyRound1_ten]
  exact ⟨h, by rw [h]; norm_num⟩

theorem totalScore_bounds (claims : List FactClaim) (results : List FactCheckResult)
    (hres : ∀ r ∈ results, 0 ≤ r.score ∧ r.score ≤ 5)
    (himp : ∀ c ∈ claims, 0 ≤ c.importance) :
    0 ≤ totalScore claims results ∧
    totalScore claims results ≤ 5 * ((totalWeight claims : ℤ) : ℚ) := by
  induction claims with
  | nil => simp [totalScore, totalWeight]
  | cons c cs ih =>
    have hc : (0 : ℤ) ≤ c.importance := himp c (List.mem_cons_self c cs)
    have hcq : (0 : ℚ) ≤ (c.importance : ℚ) := by exact_mod_cast hc
    have hcontrib : 0 ≤ claimContribution results c ∧
        claimContribution results c ≤ 5 * (c.importance : ℚ) := by
      unfold claimContribution
      cases hfind : findResult results c.id with
      | none => constructor <;> [simp; positivity]
      | some r =>
        have hr : r ∈ results := List.mem_of_find?_eq_some hfind
        obtain ⟨h0, h5⟩ := hres r hr
        refine ⟨?_, ?_⟩
        · show 0 ≤ r.score * (c.importance : ℚ)
          exact mul_nonneg h0 hcq
        · show r.score * (c.importance : ℚ) ≤ 5 * (c.importance : ℚ)
          nlinarith
    have ihs := ih (fun d hd => himp d (List.mem_cons_of_mem c hd))
    have hsplit : totalScore (c :: cs) results
        = claimContribution results c + totalScore cs results := by
      simp [totalScore]
    have hwsplit : ((totalWeight (c :: cs) : ℤ) : ℚ)
        = (c.importance : ℚ) + ((totalWeight cs : ℤ) : ℚ) := by
      unfold totalWeight
      push_cast
      simp
    rw [hsplit, hwsplit]
    constructor
    · linarith [hcontrib.1, ihs.1]
    · linarith [hcontrib.2, ihs.2]

/-- Claim C4 (amended): when every per-claim score lies in [0, 5] and
importances are nonnegative, the overall score lies in [0, 5]; with zero
claims it is exactly 2.5.  The unconditional form fails because the code
never clamps oracle-supplied scores (see `overall_score_escapes_range`). -/
theorem overall_score_bounds :
    (∀ (claims : List FactClaim) (results : List FactCheckResult),
      (∀ r ∈ results, 0 ≤ r.score ∧ r.score ≤ 5) →
      (∀ c ∈ claims, 0 ≤ c.importance) →
      0 ≤ overallScore claims results ∧ overallScore claims results ≤ 5) ∧
    (∀ results, overallScore [] results = 5/2) := by
  constructor
  · intro claims results hres himp
    obtain ⟨hts0, hts5⟩ := totalScore_bounds claims results hres himp
    unfold overallScore
    by_cases hpos : 0 < totalWeight claims
    · rw [if_pos hpos]
      have hwq : (0 : ℚ) < ((totalWeight claims : ℤ) : ℚ) := by exact_mod_cast hpos
      apply pyRound1_bounds
      · exact div_nonneg hts0 (le_of_lt hwq)
      · rw [div_le_iff₀ hwq]
        linarith
    · rw [if_neg hpos]
      norm_num
  · intro results
    simp [overallScore, totalWeight]

/-- Witness for `overall_score_bounds`: bounds at a concrete one-claim run
with an in-range score, and the zero-claim default. -/
theorem overall_score_bounds_witness :
    (0 ≤ overallScore exClaimsA exResultsA ∧ overallScore exClaimsA exResultsA ≤ 5) ∧
    overallScore [] exResultsA = 5/2 :=
  ⟨overall_score_bounds.1 exClaimsA exResultsA (by decide) (by decide),
   overall_score_bounds.2 exResultsA⟩


/-! ## Evidence search retry loop (`WebSearchClient.search`)

`search` runs `while retry_count <= self.max_retries`: each iteration
starts the request in a worker thread and joins with the timeout.  If the
thread is still alive (timeout) or completed with an exception (bad
status, malformed payload, transport error — the in-loop
`raise search_exception` is caught by the enclosing `except` clause),
`retry_count` is incremented; when it exceeds `max_retries` the method
returns the empty list.  On success the raw results are converted to
`SearchResult`s and returned.  The per-attempt outcome of the worker
thread is supplied by the environment `svc`, indexed by the value of
`retry_count` at which the attempt runs; successful outcomes carry the
already-converted result list (conversion is independent of the retry
logic under scrutiny). -/

/-- Outcome of one worker-thread attempt inside `WebSearchClient.search`. -/
inductive SearchAttemptOutcome where
  | timeoutHit
  | errored
  | succeeded (results : List SearchResult)
deriving DecidableEq, Repr

/-- The retry loop of `WebSearchClient.search`.  `attemptNo` is the
current value of `retry_count`; `left` is the number of loop iterations
the guard `retry_count <= max_retries` still allows
(`max_retries + 1 - retry_count`).  Returns the result list together with
the number of attempts performed. -/
def searchLoop (svc : Nat → SearchAttemptOutcome) :
    Nat → Nat → List SearchResult × Nat
  | attemptNo, 0 => ([], attemptNo)
  | attemptNo, left + 1 =>
    match svc attemptNo with
    | .succeeded rs => (rs, attemptNo + 1)
    | _ =>
      if left = 0 then ([], attemptNo + 1)
      else searchLoop svc (attemptNo + 1) left

/-- `WebSearchClient.search` against an environment `svc`: the loop starts
at `retry_count = 0` and the guard admits `max_retries + 1` iterations. -/
def searchModel (svc : Nat → SearchAttemptOutcome) (maxRetries : Nat) :
    List SearchResult × Nat :=
  searchLoop svc 0 (maxRetries + 1)

/-- The environment in which every request times out. -/
def alwaysTimeout : Nat → SearchAttemptOutcome := fun _ => .timeoutHit

theorem searchLoop_all_timeout (svc : Nat → SearchAttemptOutcome)
    (hsvc : ∀ n, svc n = .timeoutHit) :
    ∀ (left attemptNo : Nat),
      searchLoop svc attemptNo (left + 1) = ([], attemptNo + left + 1) := by
  intro left
  induction left with
  | zero =>
    intro attemptNo
    simp [searchLoop, hsvc attemptNo]
  | succ k ih =>
    intro attemptNo
    rw [searchLoop]
    rw [hsvc attemptNo]
    simp only
    rw [if_neg (Nat.succ_ne_zero k)]
    rw [ih (attemptNo + 1)]
    have h : attemptNo + 1 + k + 1 = attemptNo + (k + 1) + 1 := by omega
    rw [h]

/-- Counterexample to claim C2 as stated: with `max_retries = 1` and a
service that always times out, `search` performs 2 attempts (the initial
attempt plus one retry), not `max_retries = 1` attempts. -/
theorem search_timeout_attempt_count_counterexample :
    (searchModel alwaysTimeout 1).2 = 2 ∧ (searchModel alwaysTimeout 1).2 ≠ 1 := by
  constructor <;> decide

/-- Claim C2 (amended): if every underlying request times out, `search`
returns the empty list after exactly `max_retries + 1` attempts (the
initial attempt plus `max_retries` retries) and absorbs every failure --
the in-loop exception re-raise is caught by the enclosing handler, so the
embedded loop is a total function into a plain result list. -/
theorem search_all_timeout_returns_empty (svc : Nat → SearchAttemptOutcome)
    (maxRetries : Nat) (hsvc : ∀ n, svc n = .timeoutHit) :
    searchModel svc maxRetries = ([], maxRetries + 1) := by
  unfold searchModel
  rw [searchLoop_all_timeout svc hsvc maxRetries 0]
  simp

/-- Witness for `search_all_timeout_returns_empty` at `max_retries = 3`
(the repository default `BRAVE_SEARCH_MAX_RETRIES`). -/
theorem search_all_timeout_returns_empty_witness :
    searchModel alwaysTimeout 3 = ([], 4) :=
  search_all_timeout_returns_empty alwaysTimeout 3 (fun _ => rfl)

/-! ## String helpers

Python string operations used by the pipeline: `.lower()` and the `in`
substring test.  `String.toLower` in core is defined by well-founded
recursion over byte positions, which the kernel cannot evaluate, so
lowering is modelled directly on the character list (the repository only
ever lowers ASCII text, where the two agree). -/

/-- Python `s.lower()` on the character list of `s`. -/
def lowerString (s : String) : String := String.mk (s.data.map Char.toLower)

/-- Whether `needle` is an initial segment of `hay`. -/
def startsWithChars : List Char → List Char → Bool
  | [], _ => true
  | _ :: _, [] => false
  | a :: as, b :: bs => a == b && startsWithChars as bs

/-- Whether `needle` occurs contiguously inside `hay`
(Python `needle in hay`). -/
def hasSubstrChars (needle : List Char) : List Char → Bool
  | [] => needle.isEmpty
  | b :: bs => startsWithChars needle (b :: bs) || hasSubstrChars needle bs

/-- Python `needle in hay` for strings. -/
def containsText (needle hay : String) : Bool :=
  hasSubstrChars needle.data hay.data

/-! ## Claim verification (`ClaimVerifier._analyze_search_results`)

`verify_claim` flattens the search results of every query into a list of
`\x7b"title", "url", "source"\x7d` dicts and hands them, with the oracle
scoring reply, to `_analyze_search_results`.  The reply is located via the
bracket-matching regular expression and `json.loads`; its outcome is
modelled by `OracleReply`: no JSON object found, processing raised, or a
parsed object in which each expected key may be absent. -/

/-- A provisional source dict accumulated in `verify_claim` step 2. -/
structure RawSource where
  title : String
  url : String
  source : String
deriving DecidableEq, Repr

/-- A parsed oracle scoring reply; `none` fields are absent keys, read via
`dict.get` with the defaults visible in `_analyze_search_results`. -/
structure OracleAnalysis where
  score : Option ℚ
  confidence : Option ℚ
  evidence : Option (List String)
  contradictions : Option (List String)
  recency_factor : Option Bool
  explanation : Option String
deriving DecidableEq, Repr

/-- Outcome of locating and parsing the JSON object in the oracle reply:
`noJson` when the bracket-matching search finds nothing, `parseFailed`
when processing the reply raises. -/
inductive OracleReply where
  | noJson
  | parseFailed
  | parsed (a : OracleAnalysis)
deriving DecidableEq, Repr

/-- The recency caveat appended by `_analyze_search_results`. -/
def recencyCaveat : String :=
  "\n\nNote: This claim involves recent events, and information available online may be limited or still evolving. Verification is preliminary and should be revisited as more information becomes available."

/-- The source deduplication loop of `_analyze_search_results`: keep an
entry when its url is non-empty and not yet seen. -/
def dedupSourcesAux : List RawSource → List String → List SourceEntry
  | [], _ => []
  | s :: rest, seen =>
    if s.url ≠ "" ∧ s.url ∉ seen then
      ⟨s.title, s.url⟩ :: dedupSourcesAux rest (s.url :: seen)
    else
      dedupSourcesAux rest seen

def dedupSources (sources : List RawSource) : List SourceEntry :=
  dedupSourcesAux sources []

/-- The default result substituted on a failed determination (both the
missing-JSON and the raised-exception branch build this record, differing
only in the explanation text). -/
def defaultFailResult (claim : FactClaim) (queries : List String)
    (msg : String) : FactCheckResult :=
  { claim_id := claim.id, claim := claim.claim, score := 5/2,
    confidence := 3/10, evidence := [], contradictions := [],
    sources := [⟨"No sources found", "#"⟩], search_queries := queries,
    explanation := msg, is_recent_news := false }

/-- Embeds `_analyze_search_results`. -/
def analyzeSearchResults (claim : FactClaim) (reply : OracleReply)
    (sources : List RawSource) (queries : List String) : FactCheckResult :=
  match reply with
  | .parsed a =>
    let isRecent := a.recency_factor.getD false
    let explanation0 := a.explanation.getD "No explanation provided"
    let explanation :=
      if isRecent = true ∧ containsText ("recent") (lowerString explanation0) = false
      then explanation0 ++ recencyCaveat
      else explanation0
    let confidence0 := a.confidence.getD (1/2)
    let confidence :=
      if isRecent = true ∧ 7/10 < confidence0 then 7/10 else confidence0
    { claim_id := claim.id, claim := claim.claim, score := a.score.getD 0,
      confidence := confidence, evidence := a.evidence.getD [],
      contradictions := a.contradictions.getD [],
      sources := dedupSources sources, search_queries := queries,
      explanation := explanation, is_recent_news := isRecent }
  | .noJson =>
    defaultFailResult claim queries
      ("Analysis failed to provide a clear determination.")
  | .parseFailed =>
    defaultFailResult claim queries ("Analysis failed due to an error.")

/-- Step 2 of `verify_claim`: the provisional sources are the
(title, url, source) triples of all results of all queries, flattened in
query order. -/
def gatherSources (batches : List (List SearchResult)) : List RawSource :=
  batches.flatten.map (fun r => ⟨r.title, r.url, r.source⟩)

/-- `verify_claim` as far as its returned result is concerned: analyze the
oracle reply against the flattened sources. -/
def verifyClaimResult (claim : FactClaim) (reply : OracleReply)
    (batches : List (List SearchResult)) (queries : List String) : FactCheckResult :=
  analyzeSearchResults claim reply (gatherSources batches) queries

theorem dedupSourcesAux_mem (l : List RawSource) :
    ∀ seen, ∀ e ∈ dedupSourcesAux l seen, e.url ∉ seen ∧ e.url ≠ "" := by
  induction l with
  | nil => intro seen e he; simp [dedupSourcesAux] at he
  | cons s rest ih =>
    intro seen e he
    rw [dedupSourcesAux] at he
    split_ifs at he with hcond
    · rcases List.mem_cons.mp he with heq | htail
      · subst heq; exact ⟨hcond.2, hcond.1⟩
      · have := ih (s.url :: seen) e htail
        exact ⟨fun hmem => this.1 (List.mem_cons_of_mem _ hmem), this.2⟩
    · exact ih seen e he

theorem dedupSourcesAux_urls_nodup (l : List RawSource) :
    ∀ seen, ((dedupSourcesAux l seen).map (fun e => e.url)).Nodup := by
  induction l with
  | nil => intro seen; simp [dedupSourcesAux]
  | cons s rest ih =>
    intro seen
    rw [dedupSourcesAux]
    split_ifs with hcond
    · simp only [List.map_cons, List.nodup_cons]
      refine ⟨?_, ih (s.url :: seen)⟩
      intro hmem
      obtain ⟨e, he, heq⟩ := List.mem_map.mp hmem
      have := (dedupSourcesAux_mem rest (s.url :: seen) e he).1
      exact this (heq ▸ List.mem_cons_self _ _)
    · exact ih seen

theorem dedupSourcesAux_sublist (l : List RawSource) :
    ∀ seen, List.Sublist (dedupSourcesAux l seen)
      (l.map (fun s => (⟨s.title, s.url⟩ : SourceEntry))) := by
  induction l with
  | nil => intro seen; simp [dedupSourcesAux]
  | cons s rest ih =>
    intro seen
    rw [dedupSourcesAux, List.map_cons]
    split_ifs with hcond
    · exact List.Sublist.cons₂ _ (ih (s.url :: seen))
    · exact List.Sublist.cons _ (ih seen)

theorem dedupSourcesAux_first_seen (l : List RawSource) :
    ∀ seen, ∀ e ∈ dedupSourcesAux l seen,
      ∃ s, l.find? (fun t => t.url == e.url) = some s
        ∧ s.title = e.title ∧ s.url = e.url := by
  induction l with
  | nil => intro seen e he; simp [dedupSourcesAux] at he
  | cons s rest ih =>
    intro seen e he
    rw [dedupSourcesAux] at he
    split_ifs at he with hcond
    · rcases List.mem_cons.mp he with heq | htail
      · subst heq
        refine ⟨s, ?_, rfl, rfl⟩
        rw [List.find?_cons_of_pos]
        simp
      · have hdisj := (dedupSourcesAux_mem rest (s.url :: seen) e htail).1
        have hne : s.url ≠ e.url := by
          intro h
          exact hdisj (h ▸ List.mem_cons_self _ _)
        obtain ⟨t, hfind, ht, hu⟩ := ih (s.url :: seen) e htail
        refine ⟨t, ?_, ht, hu⟩
        rw [List.find?_cons_of_neg, hfind]
        simpa using hne
    · have hmem := dedupSourcesAux_mem rest seen e he
      have hne : s.url ≠ e.url := by
        intro h
        rcases not_and_or.mp hcond with hempty | hseen
        · exact hmem.2 (h ▸ not_not.mp hempty)
        · exact hmem.1 (h ▸ not_not.mp hseen)
      obtain ⟨t, hfind, ht, hu⟩ := ih seen e he
      refine ⟨t, ?_, ht, hu⟩
      rw [List.find?_cons_of_neg, hfind]
      simpa using hne

/-- Claim C8: the sources list of every returned verification result has
pairwise distinct urls -- even when several queries return the same url,
since the input is the flattening of all query batches -- and on the
parsed branch it is an order-preserving subsequence of the flattened
input whose entry for each url is the first input entry carrying it. -/
theorem verification_sources_dedup :
    (∀ (claim : FactClaim) (reply : OracleReply)
       (batches : List (List SearchResult)) (queries : List String),
      (((verifyClaimResult claim reply batches queries).sources).map
        (fun e => e.url)).Nodup) ∧
    (∀ (claim : FactClaim) (a : OracleAnalysis)
       (batches : List (List SearchResult)) (queries : List String),
      List.Sublist ((verifyClaimResult claim (.parsed a) batches queries).sources)
        ((gatherSources batches).map
           (fun s => (⟨s.title, s.url⟩ : SourceEntry))) ∧
      ∀ e ∈ (verifyClaimResult claim (.parsed a) batches queries).sources,
        ∃ s, (gatherSources batches).find? (fun t => t.url == e.url) = some s
          ∧ s.title = e.title ∧ s.url = e.url) := by
  constructor
  · intro claim reply batches queries
    cases reply with
    | noJson => simp [verifyClaimResult, analyzeSearchResults, defaultFailResult]
    | parseFailed => simp [verifyClaimResult, analyzeSearchResults, defaultFailResult]
    | parsed a =>
      show ((dedupSources (gatherSources batches)).map (fun e => e.url)).Nodup
      exact dedupSourcesAux_urls_nodup _ []
  · intro claim a batches queries
    constructor
    · show List.Sublist (dedupSources (gatherSources batches)) _
      exact dedupSourcesAux_sublist _ []
    · intro e he
      exact dedupSourcesAux_first_seen _ [] e he

/-- Witness for `verification_sources_dedup`: the first-seen clause
instantiated at a concrete duplicated url across two query batches. -/
theorem verification_sources_dedup_witness :
    ∃ s, (gatherSources [[⟨"t1", "b", "https://a.com", "a.com"⟩],
                         [⟨"t2", "b", "https://a.com", "a.com"⟩]]).find?
           (fun t => t.url == "https://a.com") = some s
      ∧ s.title = "t1" ∧ s.url = "https://a.com" := by
  have h := (verification_sources_dedup.2
    (⟨"claim_0_1", "x", "t", [], 5⟩ : FactClaim)
    (⟨none, none, none, none, none, none⟩ : OracleAnalysis)
    [[⟨"t1", "b", "https://a.com", "a.com"⟩],
     [⟨"t2", "b", "https://a.com", "a.com"⟩]] ["q"]).2
    (⟨"t1", "https://a.com"⟩ : SourceEntry) (by decide)
  obtain ⟨s, hfind, ht, hu⟩ := h
  exact ⟨s, hfind, ht, hu⟩

/-- Claim C3: when the oracle scoring reply contains no extractable JSON
object, or processing it raises, the verification result is the neutral
default -- score 2.5, confidence 0.3, empty evidence and contradictions, a
non-empty placeholder sources list, and an explanation stating the
determination failed; the embedded analysis is a total function, so the
failure never escapes to the caller. -/
theorem failure_yields_neutral_default
    (claim : FactClaim) (sources : List RawSource) (queries : List String)
    (reply : OracleReply) (hfail : reply = .noJson ∨ reply = .parseFailed) :
    (analyzeSearchResults claim reply sources queries).score = 5/2 ∧
    (analyzeSearchResults claim reply sources queries).confidence = 3/10 ∧
    (analyzeSearchResults claim reply sources queries).evidence = [] ∧
    (analyzeSearchResults claim reply sources queries).contradictions = [] ∧
    (analyzeSearchResults claim reply sources queries).sources
      = [⟨"No sources found", "#"⟩] ∧
    (analyzeSearchResults claim reply sources queries).sources ≠ [] ∧
    ((analyzeSearchResults claim reply sources queries).explanation
        = "Analysis failed to provide a clear determination." ∨
     (analyzeSearchResults claim reply sources queries).explanation
        = "Analysis failed due to an error.") := by
  rcases hfail with h | h <;> subst h <;>
    simp [analyzeSearchResults, defaultFailResult]

/-- Witness for `failure_yields_neutral_default` at the missing-JSON
branch of a concrete claim. -/
theorem failure_yields_neutral_default_witness :
    (analyzeSearchResults (⟨"claim_0_1", "x", "t", [], 5⟩ : FactClaim)
      OracleReply.noJson [] ["q"]).score = 5/2 ∧
    (analyzeSearchResults (⟨"claim_0_1", "x", "t", [], 5⟩ : FactClaim)
      OracleReply.noJson [] ["q"]).sources ≠ [] :=
  ⟨(failure_yields_neutral_default _ [] ["q"] .noJson (Or.inl rfl)).1,
   (failure_yields_neutral_default (⟨"claim_0_1", "x", "t", [], 5⟩ : FactClaim)
      [] ["q"] .noJson (Or.inl rfl)).2.2.2.2.2.1⟩

/-- Claim C7 (amended): a recency-flagged result never reports confidence
above 0.7 (a higher oracle confidence is capped), and the standard caveat
is appended exactly when the lowered explanation does not already contain
the word "recent" -- the code tests for that word, not for the caveat
itself, so an explanation that merely mentions "recent" is left without
the caveat (see `recency_caveat_skipped_counterexample`). -/
theorem recency_cap_and_caveat :
    (∀ (claim : FactClaim) (reply : OracleReply) (sources : List RawSource)
       (queries : List String),
      (analyzeSearchResults claim reply sources queries).is_recent_news = true →
      (analyzeSearchResults claim reply sources queries).confidence ≤ 7/10) ∧
    (∀ (claim : FactClaim) (a : OracleAnalysis) (sources : List RawSource)
       (queries : List String),
      a.recency_factor = some true →
      (containsText ("recent")
          (lowerString (a.explanation.getD "No explanation provided")) = false →
        (analyzeSearchResults claim (.parsed a) sources queries).explanation
          = (a.explanation.getD "No explanation provided") ++ recencyCaveat) ∧
      (containsText ("recent")
          (lowerString (a.explanation.getD "No explanation provided")) = true →
        (analyzeSearchResults claim (.parsed a) sources queries).explanation
          = a.explanation.getD "No explanation provided")) := by
  constructor
  · intro claim reply sources queries hrec
    cases reply with
    | noJson =>
      simp [analyzeSearchResults, defaultFailResult] at hrec
    | parseFailed =>
      simp [analyzeSearchResults, defaultFailResult] at hrec
    | parsed a =>
      have hr : a.recency_factor.getD false = true := hrec
      show (if a.recency_factor.getD false = true
              ∧ 7/10 < a.confidence.getD (1/2)
            then (7 : ℚ)/10 else a.confidence.getD (1/2)) ≤ 7/10
      split_ifs with hcond
      · exact le_refl _
      · rcases not_and_or.mp hcond with h | h
        · exact absurd hr h
        · exact le_of_not_lt (fun hlt => h hlt)
  · intro claim a sources queries hrecfac
    constructor
    · intro habsent
      show (if a.recency_factor.getD false = true
              ∧ containsText ("recent")
                  (lowerString (a.explanation.getD "No explanation provided")) = false
            then (a.explanation.getD "No explanation provided") ++ recencyCaveat
            else a.explanation.getD "No explanation provided")
          = (a.explanation.getD "No explanation provided") ++ recencyCaveat
      rw [if_pos ⟨by rw [hrecfac]; rfl, habsent⟩]
    · intro hpresent
      show (if a.recency_factor.getD false = true
              ∧ containsText ("recent")
                  (lowerString (a.explanation.getD "No explanation provided")) = false
            then (a.explanation.getD "No explanation provided") ++ recencyCaveat
            else a.explanation.getD "No explanation provided")
          = a.explanation.getD "No explanation provided"
      rw [if_neg]
      intro hcond
      rw [hpresent] at hcond
      exact Bool.true_eq_false.mp hcond.2

/-- A parsed oracle reply flagged as recent whose explanation mentions
"recent" without carrying the standard caveat. -/
def c7Analysis : OracleAnalysis :=
  ⟨some 3, some (9/10), some [], some [], some true, some ("Recently announced.")⟩

def c7Claim : FactClaim := ⟨"claim_0_1", "text", "t", [], 5⟩

/-- Counterexample to claim C7 as stated: the result is recency-flagged and
its explanation does not contain the standard caveat, yet no caveat is
appended, because the code only checks for the substring "recent", which
the explanation "Recently announced." already contains. -/
theorem recency_caveat_skipped_counterexample :
    (analyzeSearchResults c7Claim (.parsed c7Analysis) [] ["q"]).is_recent_news
        = true ∧
    (analyzeSearchResults c7Claim (.parsed c7Analysis) [] ["q"]).explanation
        = "Recently announced." ∧
    containsText recencyCaveat
      ((analyzeSearchResults c7Claim (.parsed c7Analysis) [] ["q"]).explanation)
        = false := by
  refine ⟨rfl, ?_, ?_⟩ <;> decide

/-- Witness for `recency_cap_and_caveat`: the cap applied to a concrete
recency-flagged reply with oracle confidence 0.9, and the append clause at
a caveat-free explanation. -/
theorem recency_cap_and_caveat_witness :
    (analyzeSearchResults c7Claim (.parsed c7Analysis) [] ["q"]).confidence
        ≤ 7/10 ∧
    (analyzeSearchResults c7Claim
        (.parsed ⟨some 3, some (9/10), some [], some [], some true,
                  some ("All sources agree.")⟩) [] ["q"]).explanation
      = "All sources agree." ++ recencyCaveat :=
  ⟨recency_cap_and_caveat.1 c7Claim (.parsed c7Analysis) [] ["q"] rfl,
   (recency_cap_and_caveat.2 c7Claim
      ⟨some 3, some (9/10), some [], some [], some true,
       some ("All sources agree.")⟩ [] ["q"] rfl).1 (by decide)⟩

/-- Claim C10: a parsed oracle reply that omits the "score" key yields a
result score of 0 (not the neutral 2.5 of the full-failure default), and
an omitted "confidence" key yields confidence 0.5. -/
theorem missing_keys_defaults :
    ∀ (claim : FactClaim) (a : OracleAnalysis) (sources : List RawSource)
      (queries : List String),
    (a.score = none →
      (analyzeSearchResults claim (.parsed a) sources queries).score = 0) ∧
    (a.confidence = none →
      (analyzeSearchResults claim (.parsed a) sources queries).confidence
        = 1/2) := by
  intro claim a sources queries
  constructor
  · intro h
    show a.score.getD 0 = 0
    rw [h]
    rfl
  · intro h
    show (if a.recency_factor.getD false = true
            ∧ 7/10 < a.confidence.getD (1/2)
          then (7 : ℚ)/10 else a.confidence.getD (1/2)) = 1/2
    rw [h]
    rw [if_neg]
    · rfl
    · intro hcond
      have : (7 : ℚ)/10 < 1/2 := hcond.2
      norm_num at this

/-- Witness for `missing_keys_defaults` at a reply omitting both keys. -/
theorem missing_keys_defaults_witness :
    (analyzeSearchResults c7Claim
        (.parsed ⟨none, none, none, none, none, none⟩) [] ["q"]).score = 0 ∧
    (analyzeSearchResults c7Claim
        (.parsed ⟨none, none, none, none, none, none⟩) [] ["q"]).confidence
      = 1/2 :=
  ⟨(missing_keys_defaults c7Claim ⟨none, none, none, none, none, none⟩ [] ["q"]).1 rfl,
   (missing_keys_defaults c7Claim ⟨none, none, none, none, none, none⟩ [] ["q"]).2 rfl⟩

/-! ## Claim selection (`ClaimExtractor.extract_claims` and
`FactCheckEngine.analyze_content`)

`extract_claims` walks the per-chunk claim batches in order, extending an
accumulator; as soon as the accumulator reaches `max_claims` entries it is
truncated to `max_claims` and the walk stops.  The truncated accumulation
is then deduplicated by case-insensitive claim text, first occurrence
winning.  `analyze_content` finally sorts the result by importance,
descending (Python `sorted` with `reverse=True` is a stable merge sort),
and truncates again to `max_claims`. -/

/-- The accumulation loop of `extract_claims`: extend, then truncate and
stop once `maxClaims` is reached. -/
def accumulateClaims (maxClaims : Nat) :
    List (List FactClaim) → List FactClaim → List FactClaim
  | [], acc => acc
  | b :: bs, acc =>
    if maxClaims ≤ (acc ++ b).length then (acc ++ b).take maxClaims
    else accumulateClaims maxClaims bs (acc ++ b)

/-- The deduplication loop of `extract_claims`: drop a claim whose
lowercased text was already seen. -/
def dedupClaims : List FactClaim → List String → List FactClaim
  | [], _ => []
  | c :: rest, seen =>
    if lowerString c.claim ∈ seen then dedupClaims rest seen
    else c :: dedupClaims rest (lowerString c.claim :: seen)

/-- The list returned by `extract_claims`. -/
def extractedClaims (batches : List (List FactClaim)) (maxClaims : Nat) :
    List FactClaim :=
  dedupClaims (accumulateClaims maxClaims batches []) []

/-- The comparison `analyze_content` sorts by: descending importance. -/
def claimDescBy (a b : FactClaim) : Bool := decide (b.importance ≤ a.importance)

/-- The claim list `analyze_content` goes on to verify: extracted claims,
stable-sorted by descending importance, truncated to `maxClaims`. -/
def selectClaims (batches : List (List FactClaim)) (maxClaims : Nat) :
    List FactClaim :=
  ((extractedClaims batches maxClaims).mergeSort claimDescBy).take maxClaims

theorem accumulateClaims_length_le (maxClaims : Nat) :
    ∀ (batches : List (List FactClaim)) (acc : List FactClaim),
      acc.length ≤ maxClaims →
      (accumulateClaims maxClaims batches acc).length ≤ maxClaims := by
  intro batches
  induction batches with
  | nil => intro acc h; simpa [accumulateClaims] using h
  | cons b bs ih =>
    intro acc h
    rw [accumulateClaims]
    split_ifs with hcond
    · simp [Nat.min_le_left maxClaims (acc ++ b).length]
    · exact ih (acc ++ b) (Nat.le_of_lt (Nat.lt_of_not_le hcond))

theorem dedupClaims_mem (l : List FactClaim) :
    ∀ seen, ∀ c ∈ dedupClaims l seen, lowerString c.claim ∉ seen := by
  induction l with
  | nil => intro seen c hc; simp [dedupClaims] at hc
  | cons d rest ih =>
    intro seen c hc
    rw [dedupClaims] at hc
    split_ifs at hc with hseen
    · exact ih seen c hc
    · rcases List.mem_cons.mp hc with rfl | htail
      · exact hseen
      · have := ih (lowerString d.claim :: seen) c htail
        exact fun hmem => this (List.mem_cons_of_mem _ hmem)

theorem dedupClaims_lower_nodup (l : List FactClaim) :
    ∀ seen, ((dedupClaims l seen).map (fun c => lowerString c.claim)).Nodup := by
  induction l with
  | nil => intro seen; simp [dedupClaims]
  | cons d rest ih =>
    intro seen
    rw [dedupClaims]
    split_ifs with hseen
    · exact ih seen
    · simp only [List.map_cons, List.nodup_cons]
      refine ⟨?_, ih (lowerString d.claim :: seen)⟩
      intro hmem
      obtain ⟨c, hc, heq⟩ := List.mem_map.mp hmem
      have := dedupClaims_mem rest (lowerString d.claim :: seen) c hc
      exact this (heq ▸ List.mem_cons_self _ _)

theorem dedupClaims_sublist (l : List FactClaim) :
    ∀ seen, List.Sublist (dedupClaims l seen) l := by
  induction l with
  | nil => intro seen; simp [dedupClaims]
  | cons d rest ih =>
    intro seen
    rw [dedupClaims]
    split_ifs with hseen
    · exact List.Sublist.cons _ (ih seen)
    · exact List.Sublist.cons₂ _ (ih (lowerString d.claim :: seen))

theorem dedupClaims_first_seen (l : List FactClaim) :
    ∀ seen, ∀ c ∈ l, lowerString c.claim ∉ seen →
      ∃ cc, l.find? (fun d => lowerString d.claim == lowerString c.claim)
              = some cc
        ∧ cc ∈ dedupClaims l seen := by
  induction l with
  | nil => intro seen c hc; simp at hc
  | cons d rest ih =>
    intro seen c hc hnotseen
    by_cases hdc : lowerString d.claim = lowerString c.claim
    · refine ⟨d, ?_, ?_⟩
      · rw [List.find?_cons_of_pos]
        simp [hdc]
      · rw [dedupClaims]
        rw [if_neg (by rw [hdc]; exact hnotseen)]
        exact List.mem_cons_self _ _
    · have hcrest : c ∈ rest := by
        rcases List.mem_cons.mp hc with rfl | h
        · exact absurd rfl hdc
        · exact h
      rw [dedupClaims]
      split_ifs with hseen
      · obtain ⟨cc, hfind, hmem⟩ := ih seen c hcrest hnotseen
        refine ⟨cc, ?_, hmem⟩
        rw [List.find?_cons_of_neg, hfind]
        simpa using hdc
      · have hnot2 : lowerString c.claim ∉ (lowerString d.claim :: seen) := by
          intro hmem2
          rcases List.mem_cons.mp hmem2 with h | h
          · exact hdc h.symm
          · exact hnotseen h
        obtain ⟨cc, hfind, hmem⟩ := ih (lowerString d.claim :: seen) c hcrest hnot2
        refine ⟨cc, ?_, List.mem_cons_of_mem _ hmem⟩
        rw [List.find?_cons_of_neg, hfind]
        simpa using hdc

theorem claimDescBy_trans (a b c : FactClaim) :
    claimDescBy a b → claimDescBy b c → claimDescBy a c := by
  intro hab hbc
  have h1 : b.importance ≤ a.importance := of_decide_eq_true hab
  have h2 : c.importance ≤ b.importance := of_decide_eq_true hbc
  exact decide_eq_true (le_trans h2 h1)

theorem claimDescBy_total (a b : FactClaim) :
    claimDescBy a b || claimDescBy b a := by
  rcases le_total b.importance a.importance with h | h <;>
    simp [claimDescBy, h]

/-- Claim C6 (amended): the selected claim list has pairwise distinct
case-insensitive texts, has size at most `maxClaims`, is sorted descending
by importance, and for every claim surviving the `maxClaims` accumulation
cut its text group is represented by exactly the first occurrence within
the cut.  The unqualified "exactly one out of any group" fails because the
truncation runs before deduplication, so a duplicated group lying wholly
past the cut retains no representative
(see `select_claims_drops_duplicate_group`). -/
theorem select_claims_spec :
    ∀ (batches : List (List FactClaim)) (maxClaims : Nat),
      ((selectClaims batches maxClaims).map (fun c => lowerString c.claim)).Nodup ∧
      (selectClaims batches maxClaims).length ≤ maxClaims ∧
      (selectClaims batches maxClaims).Pairwise
        (fun a b => b.importance ≤ a.importance) ∧
      (∀ c ∈ accumulateClaims maxClaims batches [],
        ∃ cc ∈ selectClaims batches maxClaims,
          lowerString cc.claim = lowerString c.claim ∧
          (accumulateClaims maxClaims batches []).find?
            (fun d => lowerString d.claim == lowerString c.claim) = some cc) := by
  intro batches maxClaims
  have hlenL : (accumulateClaims maxClaims batches []).length ≤ maxClaims :=
    accumulateClaims_length_le maxClaims batches [] (by simp)
  have hlenD : (extractedClaims batches maxClaims).length
      ≤ (accumulateClaims maxClaims batches []).length :=
    (dedupClaims_sublist _ []).length_le
  have hperm : List.Perm
      ((extractedClaims batches maxClaims).mergeSort claimDescBy)
      (extractedClaims batches maxClaims) :=
    List.mergeSort_perm _ claimDescBy
  have hout : selectClaims batches maxClaims
      = (extractedClaims batches maxClaims).mergeSort claimDescBy := by
    apply List.take_of_length_le
    rw [hperm.length_eq]
    omega
  refine ⟨?_, ?_, ?_, ?_⟩
  · rw [hout]
    have hmapperm := hperm.map (fun c => lowerString c.claim)
    exact hmapperm.nodup_iff.mpr (dedupClaims_lower_nodup _ [])
  · rw [hout, hperm.length_eq]
    omega
  · rw [hout]
    have hsorted : ((extractedClaims batches maxClaims).mergeSort
        claimDescBy).Pairwise (fun a b => claimDescBy a b = true) :=
      List.sorted_mergeSort claimDescBy_trans claimDescBy_total _
    exact hsorted.imp (fun h => of_decide_eq_true h)
  · intro c hc
    obtain ⟨cc, hfind, hmem⟩ :=
      dedupClaims_first_seen (accumulateClaims maxClaims batches []) []
        c hc (by simp)
    have hbeq := List.find?_some hfind
    have hcc_lower : lowerString cc.claim = lowerString c.claim := by
      simpa using hbeq
    refine ⟨cc, ?_, hcc_lower, hfind⟩
    rw [hout]
    exact hperm.mem_iff.mpr hmem

/-- Two raw claims with the same case-insensitive text in the second
chunk, behind a lower-importance claim in the first chunk. -/
def dupX1 : FactClaim := ⟨"claim_1_1", "X", "t", [], 9⟩

def dupX2 : FactClaim := ⟨"claim_1_2", "x", "t", [], 8⟩

def otherClaim : FactClaim := ⟨"claim_0_1", "Y", "t", [], 1⟩

def dupBatches : List (List FactClaim) := [[otherClaim], [dupX1, dupX2]]

/-- Counterexample to claim C6 as stated: with `maxClaims = 1` the
accumulation stops after the first chunk, so the duplicated
case-insensitive group ("X"/"x") retains zero claims, not exactly one. -/
theorem select_claims_drops_duplicate_group :
    lowerString dupX1.claim = lowerString dupX2.claim ∧
    selectClaims dupBatches 1 = [otherClaim] ∧
    (selectClaims dupBatches 1).countP
      (fun c => lowerString c.claim == lowerString dupX1.claim) = 0 := by
  have hsel : selectClaims dupBatches 1 = [otherClaim] := by
    have hacc : accumulateClaims 1 dupBatches [] = [otherClaim] := by
      rw [dupBatches, accumulateClaims]
      norm_num
    have hex : extractedClaims dupBatches 1 = [otherClaim] := by
      rw [extractedClaims, hacc, dedupClaims]
      simp [dedupClaims]
    rw [selectClaims, hex]
    simp
  refine ⟨by decide, hsel, ?_⟩
  rw [hsel]
  decide

/-- Witness for `select_claims_spec`: the representative clause at the
concrete duplicated-input batches with `maxClaims = 2`. -/
theorem select_claims_spec_witness :
    ∃ cc ∈ selectClaims [[dupX1, dupX2]] 2,
      lowerString cc.claim = lowerString dupX2.claim ∧
      (accumulateClaims 2 [[dupX1, dupX2]] []).find?
        (fun d => lowerString d.claim == lowerString dupX2.claim) = some cc :=
  (select_claims_spec [[dupX1, dupX2]] 2).2.2.2 dupX2
    (by rw [accumulateClaims]; norm_num)

/-! ## Per-chunk claim extraction
(`ClaimExtractor._extract_claims_from_chunk`)

The oracle reply for a chunk is located via the bracket-matching regular
expression and `json.loads`; the parsed array entries become `FactClaim`s
with ids `claim_<chunkId>_<i+1>` and per-key defaults.  The prompt asks
the oracle for at most 5 claims, but the code converts every entry of
whatever array comes back. -/

/-- One entry of the parsed claim array; `none` fields are absent keys. -/
structure RawClaimData where
  claim : Option String
  topic : Option String
  keywords : Option (List String)
  importance : Option Int
deriving DecidableEq, Repr

/-- Outcome of locating and parsing the JSON array in the oracle reply
for a chunk. -/
inductive ChunkReply where
  | noJson
  | parseFailed
  | parsed (items : List RawClaimData)
deriving DecidableEq, Repr

/-- The conversion loop of `_extract_claims_from_chunk`: entry `i`
(zero-based) becomes the claim with id `claim_<chunkId>_<i+1>`. -/
def buildChunkClaims (chunkId : Nat) (topic : String) :
    Nat → List RawClaimData → List FactClaim
  | _, [] => []
  | i, d :: rest =>
    { id := "claim_" ++ toString chunkId ++ "_" ++ toString (i + 1),
      claim := d.claim.getD "",
      topic := d.topic.getD topic,
      keywords := d.keywords.getD [],
      importance := d.importance.getD 5 } :: buildChunkClaims chunkId topic (i + 1) rest

/-- Embeds `_extract_claims_from_chunk`: a parsed array yields one claim
per entry; a missing or unparsable array yields no claims. -/
def extractClaimsFromChunk (reply : ChunkReply) (topic : String)
    (chunkId : Nat) : List FactClaim :=
  match reply with
  | .parsed items => buildChunkClaims chunkId topic 0 items
  | _ => []

theorem buildChunkClaims_length (chunkId : Nat) (topic : String) :
    ∀ (i : Nat) (items : List RawClaimData),
      (buildChunkClaims chunkId topic i items).length = items.length := by
  intro i items
  induction items generalizing i with
  | nil => rfl
  | cons d rest ih => simp [buildChunkClaims, ih]

/-- An oracle reply for a chunk carrying six claim entries. -/
def sixItems : List RawClaimData :=
  [⟨some "a1", none, none, some 1⟩, ⟨some "a2", none, none, some 2⟩,
   ⟨some "a3", none, none, some 3⟩, ⟨some "a4", none, none, some 4⟩,
   ⟨some "a5", none, none, some 5⟩, ⟨some "a6", none, none, some 6⟩]

/-- Counterexample to claim C9 as stated: a parsed oracle reply with six
entries yields six candidate claims from the chunk -- the 5-claim bound is
requested in the prompt but not enforced by the conversion. -/
theorem chunk_extraction_exceeds_five :
    (extractClaimsFromChunk (.parsed sixItems) ("t") 0).length = 6 ∧
    ¬ ((extractClaimsFromChunk (.parsed sixItems) ("t") 0).length ≤ 5) := by
  constructor <;> decide

/-- Claim C9 (amended): a chunk yields exactly one candidate claim per
entry of the parsed array -- in particular the yield is bounded by 5 only
when the oracle honours the prompt -- and an unparsable reply yields no
claims. -/
theorem chunk_extraction_count :
    ∀ (items : List RawClaimData) (topic : String) (chunkId : Nat),
      (extractClaimsFromChunk (.parsed items) topic chunkId).length
          = items.length ∧
      extractClaimsFromChunk .noJson topic chunkId = [] ∧
      extractClaimsFromChunk .parseFailed topic chunkId = [] :=
  fun items topic chunkId =>
    ⟨buildChunkClaims_length chunkId topic 0 items, rfl, rfl⟩

/-! ## Content acquisition (`ContentScraper.load_content`, url branch)

For a url source, `load_content` first tries `_load_with_requests`
(strategy A); if that produced no content (`None` or the empty string) or
the content matches one of the fixed block-indicator phrases, it tries
`_load_with_selenium` (strategy B); if the chosen content is still absent
or block-signatured it raises `ValueError`.  The outcome of each strategy
(its returned text, or `None` on failure) enters as a parameter; the final
BeautifulSoup text extraction is orthogonal to the fallback logic and the
chosen raw content is returned together with the flag telling whether the
fallback produced it. -/

/-- The fixed block-indicator phrases of `_check_for_access_denial`. -/
def denialIndicators : List String :=
  ["access denied",
   "access to this page has been denied",
   "has been blocked",
   "detected unusual activity",
   "please enable javascript",
   "browser appears to have javascript disabled",
   "captcha",
   "cloudflare",
   "ddos protection",
   "human verification",
   "bot protection",
   "security check"]

/-- Embeds `_check_for_access_denial`: empty content is not a denial;
otherwise any indicator occurring in the lowered content is. -/
def checkForAccessDenial (content : String) : Bool :=
  if content = "" then false
  else denialIndicators.any (fun ind => containsText ind (lowerString content))

/-- Whether a strategy outcome triggers the next step of the chain:
`not content or self._check_for_access_denial(content)`. -/
def contentBlocked : Option String → Bool
  | none => true
  | some s => s == "" || checkForAccessDenial s

/-- The url branch of `load_content`, parameterised by the outcomes of
the two strategies.  Returns the flag `fellBack` (whether the selenium
fallback produced the content) with the accepted raw content, or the
acquisition error. -/
def loadUrlContent (fetchA fetchB : Option String) :
    Except String (Bool × String) :=
  let fellBack := contentBlocked fetchA
  let content := if fellBack then fetchB else fetchA
  match content with
  | none => .error "Could not load content from URL after multiple attempts"
  | some s =>
    if s == "" || checkForAccessDenial s then
      .error "Could not load content from URL after multiple attempts"
    else .ok (fellBack, s)

/-- Claim C5: when strategy A returns no content or block-signatured
content, the outcome is decided entirely by strategy B -- the fallback is
attempted before failing -- and when strategy B is also absent or
block-signatured the load fails with the acquisition error. -/
theorem url_fallback_before_failing
    (fetchA fetchB : Option String)
    (hablocked : contentBlocked fetchA = true) :
    (contentBlocked fetchB = true →
      loadUrlContent fetchA fetchB
        = .error "Could not load content from URL after multiple attempts") ∧
    (contentBlocked fetchB = false →
      ∃ s, fetchB = some s ∧ loadUrlContent fetchA fetchB = .ok (true, s)) := by
  constructor
  · intro hb
    rw [loadUrlContent]
    rw [hablocked]
    simp only [if_pos rfl]
    cases fetchB with
    | none => rfl
    | some s =>
      simp only [contentBlocked] at hb
      simp [hb]
  · intro hb
    cases fetchB with
    | none => simp [contentBlocked] at hb
    | some s =>
      refine ⟨s, rfl, ?_⟩
      rw [loadUrlContent]
      rw [hablocked]
      simp only [contentBlocked] at hb
      simp [hb, hablocked]

/-- Witness for `url_fallback_before_failing`: a first-strategy body
containing the "captcha" block signature with an absent fallback fails;
the hypothesis is discharged by evaluating the denial check. -/
theorem url_fallback_before_failing_witness :
    loadUrlContent (some "Please solve the CAPTCHA to continue") none
      = .error "Could not load content from URL after multiple attempts" :=
  (url_fallback_before_failing (some "Please solve the CAPTCHA to continue")
      none (by decide)).1 (by decide)
